import Mathlib

/-!
# FFCameraSample: the frame pipeline of `ffcamerasampleapp.cpp`

A shallow embedding of the camera sample application: the rolling
frame-rate window (`update_fps`, `print_fps`), the viewfinder callback
(`vf_callback`), the encoder/decoder file hand-over (`ffe_write_callback`,
`ffd_read_callback`) and the session start/stop slots (`createViewfinder`,
`start_encoder`, `onStartDecoder`, `onStartStopRecording`).

Conventions of the embedding:

* `int64_t` values are `Int`; the one arithmetic operation the program performs
  on them, the subtraction of two timestamps, is `sub64`, which wraps to the
  signed 64-bit range.
* `std::deque<int64_t>` is a `List Int` whose head is `front()` and whose last
  element is `back()`.
* Pointers and handles are `Option Nat`; `none` is `NULL`
  (`CAMERA_HANDLE_INVALID` for the camera handle).
* Calls into the platform (libc, camera, ffmpeg, the ffenc/ffdec library, the
  GUI toolkit) are appended to the `calls` trace of the application state; the
  results they return are read from an explicit environment record.
-/

namespace FFCameraSample

/-! ## Constants -/

/-- The macro `SECOND` (microseconds). -/
def SECOND : Int := 1000000

/-- The tag `CAMERA_FRAMETYPE_NV12` of the platform enumeration `camera_frametype_t`. -/
def CAMERA_FRAMETYPE_NV12 : Nat := 1

/-- The errno value `EOK`. -/
def EOK : Nat := 0

/-- The errno value `EIO`. -/
def EIO : Nat := 5

/-- The errno value `EBUSY`. -/
def EBUSY : Nat := 16

/-! ## Machine arithmetic -/

/-- Subtraction of two `int64_t` values, wrapped to the range `[-2^63, 2^63)`.
It is the exact difference whenever that difference is representable. -/
def sub64 (a b : Int) : Int := (a - b + 2 ^ 63) % 2 ^ 64 - 2 ^ 63

/-- Conversion of a byte count (`size_t`) to `int`, wrapped to `[-2^31, 2^31)`:
the assignment `read = fread(...)`. -/
def toInt32 (n : Nat) : Int := ((n : Int) + 2 ^ 31) % 2 ^ 32 - 2 ^ 31

/-! ## The rolling frame-rate window -/

/-- The loop `while (fps.back() - fps.front() > SECOND) fps.pop_front();` on the
deque `fps`, counting the pops in the second argument.  The result is `none`
when the loop condition is evaluated on an empty deque, where `front()` and
`back()` are undefined. -/
def evict : List Int → Nat → Option (List Int × Nat)
  | [], _ => none
  | f :: rest, pops =>
    if sub64 ((f :: rest).getLast (List.cons_ne_nil f rest)) f > SECOND then
      evict rest (pops + 1)
    else
      some (f :: rest, pops)

/-- The method `FFCameraSampleApp::update_fps` on the deque `fps` alone:
`push_back` of the frame timestamp, then the eviction loop.  Returns the new
window and the number of `pop_front` calls. -/
def update_fps (fps : List Int) (frametimestamp : Int) : Option (List Int × Nat) :=
  evict (fps ++ [frametimestamp]) 0

/-- The window after `update_fps` has been called once for each timestamp of
`ts`, in order, starting from the window `fps`. -/
def feed : List Int → List Int → Option (List Int)
  | fps, [] => some fps
  | fps, t :: ts =>
    match update_fps fps t with
    | none => none
    | some (w, _) => feed w ts

/-! ## The application state -/

/-- A frame delivered by the camera, as far as the program reads it:
`buf->frametype` and `buf->frametimestamp`. -/
structure camera_buffer_t where
  frametype : Nat
  frametimestamp : Int
deriving DecidableEq, Repr

/-- A call into the platform, recorded in the order the program makes it. -/
inductive Call where
  | stat
  | remove
  | fopen (mode : String)
  | fclose (stream : Nat)
  | fseek (offset : Nat)
  | fread (size : Nat) (read : Int)
  | fwrite (bytes : List Nat)
  | fprintf (message : String)
  | qDebug (message : String)
  | avcodec_find_encoder
  | avcodec_find_decoder
  | av_register_all
  | avcodec_alloc_context3
  | avcodec_open2 (codec_context : Nat)
  | av_free (codec_context : Nat)
  | ffenc_reset
  | ffenc_set_close_callback
  | ffenc_set_write_callback
  | ffenc_start
  | ffenc_stop
  | ffenc_close
  | ffenc_add_frame (buf : camera_buffer_t)
  | ffdec_reset
  | ffdec_set_close_callback
  | ffdec_set_read_callback
  | ffdec_create_view
  | ffdec_start
  | ffdec_stop
  | ffdec_close
  | pthread_mutex_lock
  | pthread_cond_wait
  | pthread_mutex_unlock
  | pthread_cond_signal
  | camera_open (unit : Nat)
  | camera_close (handle : Nat)
  | camera_set_videovf_property
  | camera_set_video_property
  | camera_start_video_viewfinder
deriving DecidableEq, Repr

/-- A push button of the GUI: the properties the program sets. -/
structure Button where
  text : String
  visible : Bool
  enabled : Bool
deriving DecidableEq, Repr

/-- The status label of the GUI. -/
structure Label where
  text : String
  visible : Bool
deriving DecidableEq, Repr

/-- The one field of `ffenc_context` / `ffdec_context` that the program
accesses: the pointer `codec_context`. -/
structure ff_context where
  codec_context : Option Nat
deriving DecidableEq, Repr

/-- The object `FFCameraSampleApp` together with the part of the process state
its methods act on.  The members are those the source file uses (their
declarations are in the header); `decode_read` is the file offset passed to
`fseek`, taken as a natural number. -/
structure FFCameraSampleApp where
  mCameraHandle : Option Nat
  mCameraUnit : Nat
  record : Bool
  decode : Bool
  write_file : Option Nat
  read_file : Option Nat
  decode_read : Nat
  ffe_context : ff_context
  ffd_context : ff_context
  fps : List Int
  mStartFrontButton : Button
  mStartRearButton : Button
  mStartDecoderButton : Button
  mStopButton : Button
  mStartStopButton : Button
  mStatusLabel : Label
  /-- The local `static int64_t frametimestamp` of `print_fps`. -/
  print_fps_frametimestamp : Int
  /-- The bytes of the file `FILENAME`. -/
  shared_file : List Nat
  /-- The streams returned by `fopen` and not yet passed to `fclose`. -/
  open_files : List Nat
  /-- The codec contexts returned by `avcodec_alloc_context3` and not yet freed. -/
  live_contexts : List Nat
  /-- The platform calls made so far. -/
  calls : List Call
deriving DecidableEq, Repr

/-- Appends platform calls to the trace. -/
def FFCameraSampleApp.log (app : FFCameraSampleApp) (cs : List Call) : FFCameraSampleApp :=
  { app with calls := app.calls ++ cs }

/-- The results the platform returns to one session start (`start_encoder` or
the start path of `onStartDecoder`). -/
structure SessionEnv where
  /-- Whether `stat(FILENAME, ...)` finds the file (result other than `-1`). -/
  stat_found : Bool
  /-- The stream returned by `fopen`, `none` for `NULL`. -/
  fopen_result : Option Nat
  /-- Whether the first `avcodec_find_encoder` / `avcodec_find_decoder` finds the codec. -/
  find_codec : Bool
  /-- Whether the lookup repeated after `av_register_all` finds the codec. -/
  find_codec_again : Bool
  /-- The context returned by `avcodec_alloc_context3`, `none` for `NULL`. -/
  alloc_context : Option Nat
  /-- Whether `avcodec_open2` succeeds (result not negative). -/
  open_ok : Bool
  /-- Whether `ffenc_start` / `ffdec_start` returns `FFENC_OK` / `FFDEC_OK`. -/
  start_ok : Bool
  /-- What the library function `ffenc_close` / `ffdec_close` does to the
  session context and to the set of live codec contexts. -/
  lib_close : ff_context → List Nat → ff_context × List Nat

/-- The results the platform returns to `createViewfinder`. -/
structure CameraEnv where
  /-- The handle `camera_open` stores in `mCameraHandle` when it returns
  `CAMERA_EOK`; `none` when it fails, which leaves `mCameraHandle` as it was. -/
  camera_open : Option Nat
  /-- Whether `camera_start_video_viewfinder` returns `CAMERA_EOK`. -/
  start_viewfinder_ok : Bool

/-! ## The viewfinder and the session slots -/

/-- The method `FFCameraSampleApp::createViewfinder`; returns the error code and
the new state. -/
def createViewfinder (env : CameraEnv) (cameraUnit : Nat) (app : FFCameraSampleApp) :
    Nat × FFCameraSampleApp :=
  if app.mCameraHandle ≠ none then (EBUSY, app)
  else
    let app1 : FFCameraSampleApp := { app with mCameraUnit := cameraUnit }
    let app2 := app1.log [Call.camera_open app1.mCameraUnit]
    match env.camera_open with
    | none => ( EIO, app2)
    | some handle =>
      let app3 : FFCameraSampleApp := { app2 with mCameraHandle := some handle }
      let app3 := app3.log [Call.camera_set_videovf_property, Call.camera_set_videovf_property,
        Call.camera_set_videovf_property, Call.camera_set_video_property,
        Call.camera_start_video_viewfinder]
      if ¬ env.start_viewfinder_ok then
        ( EIO, { app3.log [Call.camera_close handle] with mCameraHandle := none })
      else
        (EOK, { app3 with
          mStartFrontButton := { app3.mStartFrontButton with visible := false }
          mStartRearButton := { app3.mStartRearButton with visible := false }
          mStartDecoderButton := { app3.mStartDecoderButton with visible := false }
          mStopButton := { app3.mStopButton with visible := true }
          mStartStopButton := { text := "Start Recording", visible := true, enabled := true } })

/-- The method `FFCameraSampleApp::onStartDecoder`.  The result is `none` when
the program dereferences the `NULL` result of `avcodec_alloc_context3`. -/
def onStartDecoder (env : SessionEnv) (app : FFCameraSampleApp) : Option FFCameraSampleApp :=
  if app.decode then
    let app1 : FFCameraSampleApp := { app with decode := false }
    let app2 := app1.log [Call.ffdec_stop, Call.pthread_cond_signal]
    some { app2 with mStartDecoderButton := { app2.mStartDecoderButton with text := "Play" } }
  else
    let app1 := app.log [Call.stat]
    if ¬ env.stat_found then some (app1.log [Call.fprintf "file not found"])
    else
      let app2 : FFCameraSampleApp := { app1.log [Call.fopen "rb"] with
                    read_file := env.fopen_result
                    open_files := env.fopen_result.toList ++ app1.open_files }
      if app2.read_file = none then some (app2.log [Call.fprintf "could not open"])
      else
        let app3 := app2.log [Call.avcodec_find_decoder]
        let app4 := if env.find_codec then app3
                    else app3.log [Call.av_register_all, Call.avcodec_find_decoder]
        if ¬ env.find_codec ∧ ¬ env.find_codec_again then
          some (app4.log [Call.fprintf "could not find codec"])
        else
          match env.alloc_context with
          | none => none
          | some codec_context =>
            let app5 : FFCameraSampleApp := { app4.log [Call.avcodec_alloc_context3] with
                          live_contexts := codec_context :: app4.live_contexts }
            let app6 : FFCameraSampleApp := { app5 with decode_read := 0 }
            let app7 := app6.log [Call.ffdec_reset, Call.ffdec_set_close_callback,
              Call.ffdec_set_read_callback]
            let app8 : FFCameraSampleApp := { app7 with ffd_context := { codec_context := some codec_context } }
            let app9 := app8.log [Call.avcodec_open2 codec_context]
            if ¬ env.open_ok then
              some ({ app9.log [Call.av_free codec_context] with
                      live_contexts := app9.live_contexts.erase codec_context }.log
                    [Call.fprintf "could not open codec context"])
            else
              let app10 := app9.log [Call.ffdec_create_view, Call.ffdec_start]
              if ¬ env.start_ok then
                let app11 := app10.log [Call.fprintf "could not start ffdec", Call.ffdec_close]
                let closed := env.lib_close app11.ffd_context app11.live_contexts
                some { app11 with ffd_context := closed.1, live_contexts := closed.2 }
              else
                let app11 : FFCameraSampleApp := { app10 with decode := true }
                let app12 : FFCameraSampleApp := { app11 with
                  mStartDecoderButton := { app11.mStartDecoderButton with text := "Stop" } }
                some (app12.log [Call.qDebug "started ffdec_context"])

/-- The method `FFCameraSampleApp::start_encoder`.  The result is `none` when
the program dereferences the `NULL` result of `avcodec_alloc_context3`. -/
def start_encoder (env : SessionEnv) (app : FFCameraSampleApp) : Option FFCameraSampleApp :=
  let app1 := app.log [Call.stat]
  let app2 := if env.stat_found then app1.log [Call.fprintf "deleting old file...", Call.remove]
              else app1
  let app3 : FFCameraSampleApp := { app2.log [Call.fopen "wb"] with
                write_file := env.fopen_result
                open_files := env.fopen_result.toList ++ app2.open_files
                shared_file := if env.fopen_result = none then app2.shared_file else [] }
  if app3.write_file = none then some (app3.log [Call.fprintf "could not open"])
  else
    let app4 := app3.log [Call.avcodec_find_encoder]
    let app5 := if env.find_codec then app4
                else app4.log [Call.av_register_all, Call.avcodec_find_encoder]
    if ¬ env.find_codec ∧ ¬ env.find_codec_again then
      some (app5.log [Call.fprintf "could not find codec"])
    else
      match env.alloc_context with
      | none => none
      | some codec_context =>
        let app6 : FFCameraSampleApp := { app5.log [Call.avcodec_alloc_context3] with
                      live_contexts := codec_context :: app5.live_contexts }
        let app7 := app6.log [Call.ffenc_reset, Call.ffenc_set_close_callback,
          Call.ffenc_set_write_callback]
        let app8 : FFCameraSampleApp := { app7 with ffe_context := { codec_context := some codec_context } }
        let app9 := app8.log [Call.avcodec_open2 codec_context]
        if ¬ env.open_ok then
          some ({ app9.log [Call.av_free codec_context] with
                  live_contexts := app9.live_contexts.erase codec_context }.log
                [Call.fprintf "could not open codec context"])
        else
          let app10 := app9.log [Call.ffenc_start]
          if ¬ env.start_ok then
            let app11 := app10.log [Call.fprintf "could not start ffenc", Call.ffenc_close]
            let closed := env.lib_close app11.ffe_context app11.live_contexts
            some { app11 with ffe_context := closed.1, live_contexts := closed.2 }
          else some app10

/-- The method `FFCameraSampleApp::onStartStopRecording`; `enc` and `dec` are the
platform results for the calls of `start_encoder` and of `onStartDecoder`. -/
def onStartStopRecording (enc dec : SessionEnv) (app : FFCameraSampleApp) :
    Option FFCameraSampleApp :=
  if app.mCameraHandle = none then some app
  else if app.record then
    let app1 : FFCameraSampleApp := { app with record := false }
    let app2 := app1.log [Call.qDebug "stop requested", Call.ffenc_stop]
    some { app2 with
      mStartStopButton := { app2.mStartStopButton with text := "Start Recording" }
      mStopButton := { app2.mStopButton with enabled := true }
      mStatusLabel := { app2.mStatusLabel with visible := false } }
  else
    let app1 := app.log [Call.qDebug "start requested"]
    match start_encoder enc app1 with
    | none => none
    | some app2 =>
      let app3 : FFCameraSampleApp := { app2 with record := true }
      match onStartDecoder dec app3 with
      | none => none
      | some app4 =>
        some { app4 with
          mStartStopButton := { app4.mStartStopButton with text := "Stop Recording" }
          mStopButton := { app4.mStopButton with enabled := false }
          mStatusLabel := { text := "VID_TEST.mpg", visible := true } }

/-- The method `FFCameraSampleApp::print_fps`. -/
def print_fps (app : FFCameraSampleApp) (buf : camera_buffer_t) : FFCameraSampleApp :=
  if app.print_fps_frametimestamp = 0 ∨
      sub64 buf.frametimestamp app.print_fps_frametimestamp ≥ SECOND then
    { app with print_fps_frametimestamp := buf.frametimestamp }.log
      [Call.qDebug (toString app.fps.length)]
  else app

/-- The callback `vf_callback`, with `arg` the application object.  The call
`app->update_fps(buf)` replaces the member `fps` by the window `update_fps`
returns. -/
def vf_callback (buf : camera_buffer_t) (app : FFCameraSampleApp) : Option FFCameraSampleApp :=
  if buf.frametype ≠ CAMERA_FRAMETYPE_NV12 then some app
  else
    match update_fps app.fps buf.frametimestamp with
    | none => none
    | some (window, _) =>
      let app1 : FFCameraSampleApp := { app with fps := window }
      let app2 := print_fps app1 buf
      some (app2.log [Call.ffenc_add_frame buf])

/-! ## The file hand-over between encoder and decoder -/

/-- The callback `ffe_write_callback` for the chunk `buf` (of `size` bytes
`buf.length`): appends the chunk to the shared file and signals `read_cond`.
The result is `none` when `write_file` is `NULL`. -/
def ffe_write_callback (buf : List Nat) (app : FFCameraSampleApp) : Option FFCameraSampleApp :=
  match app.write_file with
  | none => none
  | some _ =>
    let app1 : FFCameraSampleApp := { app with shared_file := app.shared_file ++ buf }
    some (app1.log [Call.fwrite buf, Call.pthread_cond_signal])

/-- What another thread does while the decoder thread is between a read attempt
and its wake-up from `pthread_cond_wait`: the encoder thread delivers a chunk to
`ffe_write_callback`, or the GUI thread assigns the flag `decode`. -/
inductive GateEvent where
  | chunk (bytes : List Nat)
  | flag (decode : Bool)
deriving DecidableEq, Repr

/-- Runs the events of the other threads in order. -/
def gate_events : List GateEvent → FFCameraSampleApp → Option FFCameraSampleApp
  | [], app => some app
  | GateEvent.chunk bytes :: evs, app =>
    match ffe_write_callback bytes app with
    | none => none
    | some app1 => gate_events evs app1
  | GateEvent.flag d :: evs, app => gate_events evs { app with decode := d }

/-- How a call of `ffd_read_callback` ends. -/
inductive ReadOutcome where
  /-- The callback returned `read`; `bytes` are the first `read` bytes of `buf`
  (none when `read` is not positive). -/
  | returned (read : Int) (bytes : List Nat) (app : FFCameraSampleApp)
  /-- The callback is waiting in `pthread_cond_wait` and is not woken again. -/
  | blocked (app : FFCameraSampleApp)
  /-- The callback used the `NULL` stream, or a write did during a wait. -/
  | undefined
deriving DecidableEq, Repr

/-- The bytes `fseek(read_file, decode_read, SEEK_SET)` followed by
`fread(buf, 1, size, read_file)` puts in `buf`. -/
def fread_at (app : FFCameraSampleApp) (size : Nat) : List Nat :=
  (app.shared_file.drop app.decode_read).take size

/-- The callback `ffd_read_callback` for a request of `size` bytes, with `arg`
the application object.  Each element of `wakes` is one wake-up of
`pthread_cond_wait`, given with the events of the other threads that precede
it; when `wakes` runs out while the callback waits, the callback stays
blocked. -/
def ffd_read_callback (size : Nat) :
    List (List GateEvent) → FFCameraSampleApp → ReadOutcome
  | wakes, app =>
    match app.read_file with
    | none => ReadOutcome.undefined
    | some _ =>
      let buf := fread_at app size
      let read := toInt32 buf.length
      let app1 := app.log [Call.fseek app.decode_read, Call.fread size read]
      if read > 0 then
        ReadOutcome.returned read (buf.take read.toNat)
          { app1 with decode_read := app1.decode_read + read.toNat }
      else
        let app2 := app1.log [Call.pthread_mutex_lock, Call.pthread_cond_wait]
        match wakes with
        | [] => ReadOutcome.blocked app2
        | evs :: rest =>
          match gate_events evs app2 with
          | none => ReadOutcome.undefined
          | some app3 =>
            let app4 := app3.log [Call.pthread_mutex_unlock]
            if app4.decode then ffd_read_callback size rest app4
            else ReadOutcome.returned read [] app4

/-- The callback `ffe_context_close`; `lib_close` is the effect of the library
function `ffenc_close`.  The result is `none` when `write_file` is `NULL`. -/
def ffe_context_close (lib_close : ff_context → List Nat → ff_context × List Nat)
    (app : FFCameraSampleApp) : Option FFCameraSampleApp :=
  let app1 := app.log [Call.qDebug "closing ffenc_context", Call.ffenc_close]
  let closed := lib_close app1.ffe_context app1.live_contexts
  let app2 : FFCameraSampleApp :=
    { app1 with ffe_context := closed.1, live_contexts := closed.2 }
  match app2.write_file with
  | none => none
  | some stream =>
    some { app2.log [Call.fclose stream] with
           open_files := app2.open_files.erase stream
           write_file := none }

/-- The callback `ffd_context_close`; `lib_close` is the effect of the library
function `ffdec_close`.  The result is `none` when `read_file` is `NULL`. -/
def ffd_context_close (lib_close : ff_context → List Nat → ff_context × List Nat)
    (app : FFCameraSampleApp) : Option FFCameraSampleApp :=
  let app1 := app.log [Call.qDebug "closing ffdec_context", Call.ffdec_close]
  let closed := lib_close app1.ffd_context app1.live_contexts
  let app2 : FFCameraSampleApp :=
    { app1 with ffd_context := closed.1, live_contexts := closed.2 }
  match app2.read_file with
  | none => none
  | some stream =>
    some { app2.log [Call.fclose stream] with
           open_files := app2.open_files.erase stream
           read_file := none }

/-- One step of the pipeline as the scheduler interleaves it: a chunk delivered
by the encoder thread, an assignment of the flag `decode` by the GUI thread, or
a read request of the decoder thread together with its wake-ups. -/
inductive PipeEvent where
  | chunk (bytes : List Nat)
  | flag (decode : Bool)
  | read (size : Nat) (wakes : List (List GateEvent))
deriving DecidableEq, Repr

/-- Runs the events of the encoder and GUI threads of an interleaving once the
decoder thread is blocked for good: its read requests no longer happen. -/
def run_writers : List PipeEvent → FFCameraSampleApp → Option FFCameraSampleApp
  | [], app => some app
  | PipeEvent.chunk bytes :: evs, app =>
    match ffe_write_callback bytes app with
    | none => none
    | some app1 => run_writers evs app1
  | PipeEvent.flag d :: evs, app => run_writers evs { app with decode := d }
  | PipeEvent.read _ _ :: evs, app => run_writers evs app

/-- Runs an interleaving, collecting in the second component the bytes that the
read requests returned, in order.  After a read request that stays blocked only
the other threads go on.  The result is `none` when a callback used a `NULL`
stream. -/
def run_pipe : List PipeEvent → FFCameraSampleApp × List Nat →
    Option (FFCameraSampleApp × List Nat)
  | [], st => some st
  | PipeEvent.chunk bytes :: evs, (app, got) =>
    match ffe_write_callback bytes app with
    | none => none
    | some app1 => run_pipe evs (app1, got)
  | PipeEvent.flag d :: evs, (app, got) => run_pipe evs ({ app with decode := d }, got)
  | PipeEvent.read size wakes :: evs, (app, got) =>
    match ffd_read_callback size wakes app with
    | ReadOutcome.undefined => none
    | ReadOutcome.blocked app1 => (run_writers evs app1).map (fun app2 => (app2, got))
    | ReadOutcome.returned _ bytes app1 => run_pipe evs (app1, got ++ bytes)

/-- The chunks passed to `fwrite`, concatenated in call order. -/
def written : List Call → List Nat
  | [] => []
  | Call.fwrite bytes :: cs => bytes ++ written cs
  | _ :: cs => written cs

/-- The number of `pthread_cond_wait` calls in a trace. -/
def waits (cs : List Call) : Nat := cs.count Call.pthread_cond_wait

/-- The number of `fread` calls in a trace that obtained no byte (`read <= 0`). -/
def empty_reads : List Call → Nat
  | [] => 0
  | Call.fread _ read :: cs => (if read ≤ 0 then 1 else 0) + empty_reads cs
  | _ :: cs => empty_reads cs

/-- The application state a read request ends in. -/
def ReadOutcome.app? : ReadOutcome → Option FFCameraSampleApp
  | ReadOutcome.returned _ _ app => some app
  | ReadOutcome.blocked app => some app
  | ReadOutcome.undefined => none

/-- The `int` result of one read attempt of `ffd_read_callback`. -/
def read_count (app : FFCameraSampleApp) (size : Nat) : Int :=
  toInt32 (fread_at app size).length

/-- The state in which `ffd_read_callback` waits on `read_cond` after a read
attempt that obtained no byte. -/
def enter_wait (app : FFCameraSampleApp) (size : Nat) : FFCameraSampleApp :=
  (app.log [Call.fseek app.decode_read, Call.fread size (read_count app size)]).log
    [Call.pthread_mutex_lock, Call.pthread_cond_wait]

/-- The invariant of the hand-over: the file holds the written chunks in write
order, the bytes returned so far are its first `decode_read` bytes, and both
streams are open. -/
def PipeInv (app : FFCameraSampleApp) (got : List Nat) : Prop :=
  app.shared_file = written app.calls ∧ got = app.shared_file.take app.decode_read ∧
    app.decode_read ≤ app.shared_file.length ∧ app.write_file ≠ none ∧ app.read_file ≠ none

/-! ## Example states -/

/-- The state the constructor leaves: no camera, no session, the buttons as
created; the members the constructor does not initialise are given as zero. -/
def initial_app : FFCameraSampleApp :=
  { mCameraHandle := none
    mCameraUnit := 0
    record := false
    decode := false
    write_file := none
    read_file := none
    decode_read := 0
    ffe_context := { codec_context := none }
    ffd_context := { codec_context := none }
    fps := []
    mStartFrontButton := { text := "Front", visible := true, enabled := true }
    mStartRearButton := { text := "Rear", visible := true, enabled := true }
    mStartDecoderButton := { text := "Play", visible := true, enabled := true }
    mStopButton := { text := "Stop Camera", visible := false, enabled := true }
    mStartStopButton := { text := "Record Start", visible := false, enabled := true }
    mStatusLabel := { text := "filename", visible := false }
    print_fps_frametimestamp := 0
    shared_file := []
    open_files := []
    live_contexts := []
    calls := [] }

/-- A state with both streams open on the still empty file and the flag
`decode` clear, as the decoder thread finds the application when a read request
runs before `onStartDecoder` reaches `decode = true`, or after its stop branch
has cleared the flag.  Only the members the callbacks use differ from the
initial state. -/
def session_app : FFCameraSampleApp :=
  { initial_app with
    mCameraHandle := some 1
    record := true
    write_file := some 8
    read_file := some 7
    open_files := [7, 8] }

/-- The library close that frees the attached codec context and clears the
pointer; used only to complete the example environments. -/
def close_and_clear (ctx : ff_context) (live : List Nat) : ff_context × List Nat :=
  match ctx.codec_context with
  | none => (ctx, live)
  | some p => ({ codec_context := none }, live.erase p)

/-- The state after the camera was started: `createViewfinder` succeeded on the
initial state with camera handle 1. -/
def camera_app : FFCameraSampleApp :=
  (createViewfinder { camera_open := some 1, start_viewfinder_ok := true } 2 initial_app).2

/-- A platform on which every step of a session start succeeds: the file
exists, `fopen` returns stream 7, the codec is found, context 5 is allocated. -/
def env_ok : SessionEnv :=
  { stat_found := true
    fopen_result := some 7
    find_codec := true
    find_codec_again := true
    alloc_context := some 5
    open_ok := true
    start_ok := true
    lib_close := close_and_clear }

/-- A platform on which the file is absent and cannot be opened (the directory
of `FILENAME` is missing): `stat` fails and `fopen` returns `NULL`. -/
def env_no_file : SessionEnv :=
  { env_ok with stat_found := false, fopen_result := none }

/-- A platform on which the output file opens as stream 8 and no codec is
found, also after `av_register_all`. -/
def env_no_codec : SessionEnv :=
  { env_ok with stat_found := false, fopen_result := some 8, find_codec := false,
                find_codec_again := false }

/-- A platform on which the output file opens as stream 8 and context 5 is
allocated, and `avcodec_open2` fails. -/
def env_open_fails : SessionEnv :=
  { env_ok with stat_found := false, fopen_result := some 8, open_ok := false }

/-- A platform on which the source file opens as stream 7 and no decoder is
found, also after `av_register_all`. -/
def env_no_decoder : SessionEnv :=
  { env_ok with find_codec := false, find_codec_again := false }

/-- A platform on which every step of `start_encoder` succeeds: no old file,
`fopen` returns stream 8, the encoder is found, context 4 is allocated. -/
def env_encoder_ok : SessionEnv :=
  { env_ok with stat_found := false, fopen_result := some 8, alloc_context := some 4 }

/-! ## Lemmas on the machine arithmetic -/

theorem sub64_self (a : Int) : sub64 a a = 0 := by
  unfold sub64
  norm_num

theorem sub64_exact (a b : Int) (hlo : -(2 ^ 63) ≤ a - b) (hhi : a - b < 2 ^ 63) :
    sub64 a b = a - b := by
  unfold sub64
  omega

theorem toInt32_le (n : Nat) (h : 0 < toInt32 n) : toInt32 n ≤ (n : Int) := by
  unfold toInt32 at *
  omega

/-! ## Lemmas on the eviction loop -/

theorem getLast_snoc_cons (f t : Int) (w : List Int) :
    (f :: (w ++ [t])).getLast (List.cons_ne_nil f (w ++ [t])) = t := by
  simp [List.getLast_cons]

/-- The eviction loop started on a window that ends in the pushed timestamp `t`
returns: it drops `n` entries from the front, `n` at most the number of older
entries, and stops at a front within one second of `t`. -/
theorem evict_snoc (w : List Int) (t : Int) (k : Nat) :
    ∃ n, n ≤ w.length ∧ evict (w ++ [t]) k = some ((w ++ [t]).drop n, k + n) ∧
      ∀ f, ((w ++ [t]).drop n).head? = some f → sub64 t f ≤ SECOND := by
  induction w generalizing k with
  | nil =>
    refine ⟨0, le_refl _, ?_, ?_⟩
    · simp [evict, sub64_self, SECOND]
    · intro f hf
      simp at hf
      subst hf
      simp [sub64_self, SECOND]
  | cons f w ih =>
    by_cases hc : sub64 t f > SECOND
    · obtain ⟨n, hn, he, hf⟩ := ih (k + 1)
      refine ⟨n + 1, by simpa using hn, ?_, ?_⟩
      · have : evict ((f :: w) ++ [t]) k = evict (w ++ [t]) (k + 1) := by
          show evict (f :: (w ++ [t])) k = _
          rw [evict, getLast_snoc_cons, if_pos hc]
        rw [this, he]
        simp [Nat.add_assoc, Nat.add_comm 1 n]
      · simpa using hf
    · refine ⟨0, Nat.zero_le _, ?_, ?_⟩
      · show evict (f :: (w ++ [t])) k = _
        rw [evict, getLast_snoc_cons, if_neg hc]
        simp
      · intro g hg
        simp at hg
        subst hg
        exact not_lt.mp hc

theorem update_fps_snoc (fps : List Int) (t : Int) :
    ∃ n, n ≤ fps.length ∧ update_fps fps t = some ((fps ++ [t]).drop n, n) ∧
      ∀ f, ((fps ++ [t]).drop n).head? = some f → sub64 t f ≤ SECOND := by
  obtain ⟨n, hn, he, hf⟩ := evict_snoc fps t 0
  exact ⟨n, hn, by simpa [update_fps] using he, hf⟩

theorem getLast?_drop_snoc (w : List Int) (t : Int) (n : Nat) (hn : n ≤ w.length) :
    ((w ++ [t]).drop n).getLast? = some t := by
  rw [List.drop_append_of_le_length hn]
  simp

/-- Feeding timestamps always returns a window; its entries come from the
starting window or from the timestamps fed, and once a timestamp has been fed
the wrapped difference of back and front is at most `SECOND`. -/
theorem feed_total (ts : List Int) : ∀ fps : List Int,
    ∃ w, feed fps ts = some w ∧ (∀ x ∈ w, x ∈ fps ∨ x ∈ ts) ∧
      (ts ≠ [] → ∀ f b, w.head? = some f → w.getLast? = some b → sub64 b f ≤ SECOND) := by
  induction ts with
  | nil =>
    intro fps
    exact ⟨fps, rfl, fun x hx => Or.inl hx, fun h => absurd rfl h⟩
  | cons t ts ih =>
    intro fps
    obtain ⟨n, hn, he, hf⟩ := update_fps_snoc fps t
    obtain ⟨w, hw, hmem, hinv⟩ := ih ((fps ++ [t]).drop n)
    refine ⟨w, ?_, ?_, ?_⟩
    · simp only [feed, he]
      exact hw
    · intro x hx
      rcases hmem x hx with h | h
      · have h2 : x ∈ fps ++ [t] := List.mem_of_mem_drop h
        rcases List.mem_append.mp h2 with h3 | h3
        · exact Or.inl h3
        · right
          simp at h3
          simp [h3]
      · right
        simp [h]
    · intro _ f b hhead hlast
      by_cases hts : ts = []
      · subst hts
        simp only [feed] at hw
        cases hw
        rw [getLast?_drop_snoc fps t n hn] at hlast
        cases hlast
        exact hf f hhead
      · exact hinv hts f b hhead hlast

/-- On a non-decreasing window whose span does not overflow, the eviction loop
keeps exactly the entries within one second of the pushed timestamp. -/
theorem evict_sorted (w : List Int) (t : Int) :
    ∀ k : Nat, (w ++ [t]).Pairwise (fun a b => a ≤ b) → (∀ x ∈ w, t - x < 2 ^ 63) →
      ∃ n, evict (w ++ [t]) k =
        some ((w ++ [t]).filter (fun x => decide (t - x ≤ SECOND)), n) := by
  induction w with
  | nil =>
    intro k _ _
    refine ⟨k, ?_⟩
    simp [evict, sub64_self, SECOND]
  | cons f w ih =>
    intro k hs hspan
    have hs2 : (f :: (w ++ [t])).Pairwise (fun a b => a ≤ b) := hs
    rw [List.pairwise_cons] at hs2
    have hft : f ≤ t := hs2.1 t (by simp)
    have hex : sub64 t f = t - f :=
      sub64_exact t f (by omega) (hspan f (by simp))
    by_cases hc : t - f > SECOND
    · obtain ⟨n, hn⟩ := ih (k + 1) hs2.2 (fun x hx => hspan x (by simp [hx]))
      refine ⟨n, ?_⟩
      show evict (f :: (w ++ [t])) k = _
      rw [evict, getLast_snoc_cons, hex, if_pos hc, hn]
      have hnot : ¬ (decide (t - f ≤ SECOND) = true) := by
        rw [decide_eq_true_eq]
        exact not_le.mpr hc
      simp only [List.cons_append]
      rw [List.filter_cons_of_neg (p := fun x => decide (t - x ≤ SECOND)) hnot]
    · refine ⟨k, ?_⟩
      show evict (f :: (w ++ [t])) k = _
      rw [evict, getLast_snoc_cons, hex, if_neg hc]
      have hall : ∀ x ∈ f :: (w ++ [t]), decide (t - x ≤ SECOND) = true := by
        intro x hx
        have hfx : f ≤ x := by
          rcases List.mem_cons.mp hx with h | h
          · exact le_of_eq h.symm
          · exact hs2.1 x h
        have : t - f ≤ SECOND := not_lt.mp hc
        exact decide_eq_true (by omega)
      have := List.filter_eq_self.mpr hall
      simp only [List.cons_append]
      rw [this]

theorem feed_snoc (ts : List Int) (t : Int) : ∀ fps : List Int,
    feed fps (ts ++ [t]) =
      (feed fps ts).bind (fun w => (update_fps w t).map Prod.fst) := by
  induction ts with
  | nil =>
    intro fps
    simp only [List.nil_append, feed, Option.some_bind]
    cases update_fps fps t with
    | none => rfl
    | some r => rfl
  | cons u ts ih =>
    intro fps
    simp only [List.cons_append, feed]
    cases update_fps fps u with
    | none => rfl
    | some r => exact ih r.1

theorem filter_within_mono (ts : List Int) (u t : Int)
    (hut : u ≤ t) :
    (ts.filter (fun x => decide (u - x ≤ SECOND))).filter (fun x => decide (t - x ≤ SECOND)) =
      ts.filter (fun x => decide (t - x ≤ SECOND)) := by
  rw [List.filter_filter]
  apply List.filter_congr
  intro x _
  by_cases h : t - x ≤ SECOND
  · have h2 : u - x ≤ SECOND := by omega
    simp [h, h2]
  · simp [h]

/-- Feeding a non-decreasing sequence whose span does not overflow leaves
exactly the timestamps within one second of the last one. -/
theorem feed_sorted (ts : List Int) : ∀ t : Int,
    (ts ++ [t]).Pairwise (fun a b => a ≤ b) → (∀ x ∈ ts, t - x < 2 ^ 63) →
      feed [] (ts ++ [t]) = some ((ts ++ [t]).filter (fun x => decide (t - x ≤ SECOND))) := by
  induction ts using List.reverseRecOn with
  | nil =>
    intro t _ _
    simp [feed, update_fps, evict, sub64_self, SECOND]
  | append_singleton ts u ih =>
    intro t hs hspan
    have hsu : (ts ++ [u]).Pairwise (fun a b => a ≤ b) :=
      (List.pairwise_append.mp hs).1
    have hut : u ≤ t := (List.pairwise_append.mp hs).2.2 u (by simp) t (by simp)
    have hspanu : ∀ x ∈ ts, u - x < 2 ^ 63 := by
      intro x hx
      have := hspan x (by simp [hx])
      omega
    rw [feed_snoc, ih u hsu hspanu, Option.some_bind]
    have hsub : ((ts ++ [u]).filter (fun x => decide (u - x ≤ SECOND)) ++ [t]).Sublist
        ((ts ++ [u]) ++ [t]) :=
      List.Sublist.append (List.filter_sublist _) (List.Sublist.refl _)
    have hsw := List.Pairwise.sublist hsub hs
    have hspw : ∀ x ∈ (ts ++ [u]).filter (fun x => decide (u - x ≤ SECOND)), t - x < 2 ^ 63 :=
      fun x hx => hspan x (List.mem_of_mem_filter hx)
    obtain ⟨n, hn⟩ := evict_sorted _ t 0 hsw hspw
    simp only [update_fps, hn, Option.map_some']
    rw [List.filter_append, filter_within_mono _ u t hut, ← List.filter_append]

/-! ## Lemmas on the file hand-over -/

theorem written_append (cs ds : List Call) : written (cs ++ ds) = written cs ++ written ds := by
  induction cs with
  | nil => rfl
  | cons c cs ih =>
    cases c <;> simp [written, ih]

theorem waits_append (cs ds : List Call) : waits (cs ++ ds) = waits cs + waits ds := by
  simp [waits]

theorem empty_reads_append (cs ds : List Call) :
    empty_reads (cs ++ ds) = empty_reads cs + empty_reads ds := by
  induction cs with
  | nil => simp [empty_reads]
  | cons c cs ih =>
    cases c <;> simp [empty_reads, ih, Nat.add_assoc]

theorem ffd_read_callback_null (size : Nat) (wakes : List (List GateEvent))
    (app : FFCameraSampleApp) (h : app.read_file = none) :
    ffd_read_callback size wakes app = ReadOutcome.undefined := by
  rw [ffd_read_callback]
  simp only [h]

theorem ffd_read_callback_data (size : Nat) (wakes : List (List GateEvent))
    (app : FFCameraSampleApp) (h : app.read_file ≠ none) (hpos : 0 < read_count app size) :
    ffd_read_callback size wakes app =
      ReadOutcome.returned (read_count app size)
        ((fread_at app size).take (read_count app size).toNat)
        { app.log [Call.fseek app.decode_read, Call.fread size (read_count app size)] with
          decode_read := app.decode_read + (read_count app size).toNat } := by
  obtain ⟨s, hs⟩ := Option.ne_none_iff_exists'.mp h
  unfold read_count at hpos
  rw [ffd_read_callback]
  simp only [hs, hpos, if_true]
  rfl

theorem ffd_read_callback_stuck (size : Nat) (app : FFCameraSampleApp)
    (h : app.read_file ≠ none) (hzero : read_count app size ≤ 0) :
    ffd_read_callback size [] app = ReadOutcome.blocked (enter_wait app size) := by
  obtain ⟨s, hs⟩ := Option.ne_none_iff_exists'.mp h
  have hn : ¬ (toInt32 (fread_at app size).length > 0) := not_lt.mpr hzero
  rw [ffd_read_callback]
  simp only [hs, hn, if_false]
  rfl

theorem ffd_read_callback_wake (size : Nat) (evs : List GateEvent)
    (rest : List (List GateEvent)) (app : FFCameraSampleApp)
    (h : app.read_file ≠ none) (hzero : read_count app size ≤ 0) :
    ffd_read_callback size (evs :: rest) app =
      match gate_events evs (enter_wait app size) with
      | none => ReadOutcome.undefined
      | some app3 =>
        if (app3.log [Call.pthread_mutex_unlock]).decode then
          ffd_read_callback size rest (app3.log [Call.pthread_mutex_unlock])
        else ReadOutcome.returned (read_count app size) [] (app3.log [Call.pthread_mutex_unlock]) := by
  obtain ⟨s, hs⟩ := Option.ne_none_iff_exists'.mp h
  have hn : ¬ (toInt32 (fread_at app size).length > 0) := not_lt.mpr hzero
  rw [ffd_read_callback]
  simp only [hs, hn, if_false]
  rfl

theorem pipeInv_log (app : FFCameraSampleApp) (got : List Nat) (cs : List Call)
    (h : PipeInv app got) (hcs : written cs = []) : PipeInv (app.log cs) got := by
  obtain ⟨h1, h2, h3, h4, h5⟩ := h
  refine ⟨?_, h2, h3, h4, h5⟩
  show app.shared_file = written (app.calls ++ cs)
  rw [written_append, hcs, List.append_nil]
  exact h1

theorem ffe_write_callback_inv (buf : List Nat) (app : FFCameraSampleApp) (got : List Nat)
    (h : PipeInv app got) :
    ∃ app1, ffe_write_callback buf app = some app1 ∧ PipeInv app1 got ∧
      app1.decode_read = app.decode_read := by
  obtain ⟨h1, h2, h3, h4, h5⟩ := h
  obtain ⟨s, hs⟩ := Option.ne_none_iff_exists'.mp h4
  refine ⟨({ app with shared_file := app.shared_file ++ buf } : FFCameraSampleApp).log
    [Call.fwrite buf, Call.pthread_cond_signal], by simp only [ffe_write_callback, hs], ?_, rfl⟩
  refine ⟨?_, ?_, ?_, h4, h5⟩
  · show app.shared_file ++ buf = written (app.calls ++ [Call.fwrite buf, Call.pthread_cond_signal])
    rw [written_append, ← h1]
    simp [written]
  · show got = (app.shared_file ++ buf).take app.decode_read
    rw [List.take_append_of_le_length h3]
    exact h2
  · show app.decode_read ≤ (app.shared_file ++ buf).length
    rw [List.length_append]
    omega

theorem gate_events_inv (evs : List GateEvent) : ∀ (app : FFCameraSampleApp) (got : List Nat),
    PipeInv app got →
      ∃ app1, gate_events evs app = some app1 ∧ PipeInv app1 got ∧
        app1.decode_read = app.decode_read := by
  induction evs with
  | nil =>
    intro app got h
    exact ⟨app, rfl, h, rfl⟩
  | cons e evs ih =>
    intro app got h
    cases e with
    | chunk bytes =>
      obtain ⟨app1, hw, hinv, hdr⟩ := ffe_write_callback_inv bytes app got h
      obtain ⟨app2, hg, hinv2, hdr2⟩ := ih app1 got hinv
      refine ⟨app2, ?_, hinv2, hdr2.trans hdr⟩
      simp only [gate_events, hw]
      exact hg
    | flag d =>
      have hflag : PipeInv { app with decode := d } got := h
      obtain ⟨app2, hg, hinv2, hdr2⟩ := ih _ got hflag
      exact ⟨app2, by simpa only [gate_events] using hg, hinv2, hdr2⟩

theorem gate_events_decode_read (evs : List GateEvent) : ∀ (app app1 : FFCameraSampleApp),
    gate_events evs app = some app1 → app1.decode_read = app.decode_read := by
  induction evs with
  | nil =>
    intro app app1 h
    simp only [gate_events, Option.some.injEq] at h
    rw [← h]
  | cons e evs ih =>
    intro app app1 h
    cases e with
    | chunk bytes =>
      simp only [gate_events] at h
      cases hw : ffe_write_callback bytes app with
      | none => rw [hw] at h; cases h
      | some app2 =>
        rw [hw] at h
        have h2 := ih app2 app1 h
        unfold ffe_write_callback at hw
        cases hwf : app.write_file with
        | none => rw [hwf] at hw; cases hw
        | some s =>
          rw [hwf] at hw
          simp only [Option.some.injEq] at hw
          rw [h2, ← hw]
          rfl
    | flag d =>
      simp only [gate_events] at h
      have h2 := ih _ app1 h
      exact h2

theorem fread_at_length_le (app : FFCameraSampleApp) (size : Nat) :
    (fread_at app size).length ≤ app.shared_file.length - app.decode_read := by
  unfold fread_at
  rw [List.length_take, List.length_drop]
  exact Nat.min_le_right _ _

theorem read_count_le (app : FFCameraSampleApp) (size : Nat) (hpos : 0 < read_count app size) :
    (read_count app size).toNat ≤ (fread_at app size).length := by
  have := toInt32_le (fread_at app size).length hpos
  unfold read_count at *
  omega

theorem take_fread_at (app : FFCameraSampleApp) (size n : Nat)
    (hn : n ≤ (fread_at app size).length) :
    (fread_at app size).take n = (app.shared_file.drop app.decode_read).take n := by
  have hsz : n ≤ size := by
    unfold fread_at at hn
    rw [List.length_take] at hn
    exact le_trans hn (Nat.min_le_left _ _)
  unfold fread_at
  rw [List.take_take, Nat.min_eq_left hsz]

/-- A read request keeps the hand-over invariant: it returns or blocks, and the
bytes it returns extend the bytes returned so far. -/
theorem ffd_read_callback_inv (size : Nat) (wakes : List (List GateEvent)) :
    ∀ (app : FFCameraSampleApp) (got : List Nat), PipeInv app got →
      (∃ n bytes app1, ffd_read_callback size wakes app = ReadOutcome.returned n bytes app1 ∧
          PipeInv app1 (got ++ bytes)) ∨
        (∃ app1, ffd_read_callback size wakes app = ReadOutcome.blocked app1 ∧
          PipeInv app1 got) := by
  induction wakes with
  | nil =>
    intro app got h
    by_cases hpos : 0 < read_count app size
    · left
      refine ⟨_, _, _, ffd_read_callback_data size [] app h.2.2.2.2 hpos, ?_⟩
      have hle := read_count_le app size hpos
      have hlen := fread_at_length_le app size
      obtain ⟨h1, h2, h3, h4, h5⟩ := h
      refine ⟨?_, ?_, ?_, h4, h5⟩
      · show app.shared_file = written (app.calls ++ _)
        rw [written_append]
        simp [written, h1]
      · show got ++ _ = app.shared_file.take (app.decode_read + (read_count app size).toNat)
        rw [take_fread_at app size _ hle, List.take_add, ← h2]
      · show app.decode_read + (read_count app size).toNat ≤ app.shared_file.length
        omega
    · right
      refine ⟨_, ffd_read_callback_stuck size app h.2.2.2.2 (not_lt.mp hpos), ?_⟩
      exact pipeInv_log _ _ _ (pipeInv_log _ _ _ h rfl) rfl
  | cons evs rest ih =>
    intro app got h
    by_cases hpos : 0 < read_count app size
    · left
      refine ⟨_, _, _, ffd_read_callback_data size _ app h.2.2.2.2 hpos, ?_⟩
      have hle := read_count_le app size hpos
      have hlen := fread_at_length_le app size
      obtain ⟨h1, h2, h3, h4, h5⟩ := h
      refine ⟨?_, ?_, ?_, h4, h5⟩
      · show app.shared_file = written (app.calls ++ _)
        rw [written_append]
        simp [written, h1]
      · show got ++ _ = app.shared_file.take (app.decode_read + (read_count app size).toNat)
        rw [take_fread_at app size _ hle, List.take_add, ← h2]
      · show app.decode_read + (read_count app size).toNat ≤ app.shared_file.length
        omega
    · have hwait : PipeInv (enter_wait app size) got :=
        pipeInv_log _ _ _ (pipeInv_log _ _ _ h rfl) rfl
      obtain ⟨app3, hg, hinv3, _⟩ := gate_events_inv evs _ got hwait
      have hinv4 : PipeInv (app3.log [Call.pthread_mutex_unlock]) got :=
        pipeInv_log _ _ _ hinv3 rfl
      rw [ffd_read_callback_wake size evs rest app h.2.2.2.2 (not_lt.mp hpos), hg]
      by_cases hd : (app3.log [Call.pthread_mutex_unlock]).decode = true
      · simp only [hd, if_true]
        exact ih _ got hinv4
      · simp only [hd]
        left
        exact ⟨_, _, _, rfl, by simpa using hinv4⟩

/-- A read request that returns a positive count returns that many file bytes
from the offset `decode_read` it was called with and advances the offset by
the count. -/
theorem ffd_read_callback_bytes (size : Nat) (wakes : List (List GateEvent)) :
    ∀ (app : FFCameraSampleApp) (n : Int) (bytes : List Nat) (app1 : FFCameraSampleApp),
      ffd_read_callback size wakes app = ReadOutcome.returned n bytes app1 → 0 < n →
        app1.decode_read = app.decode_read + n.toNat ∧
          bytes = (app1.shared_file.drop app.decode_read).take n.toNat ∧
          bytes.length = n.toNat := by
  have hdata : ∀ (wakes : List (List GateEvent)) (app : FFCameraSampleApp) (n : Int)
      (bytes : List Nat) (app1 : FFCameraSampleApp), app.read_file ≠ none →
      0 < read_count app size →
      ffd_read_callback size wakes app = ReadOutcome.returned n bytes app1 →
        app1.decode_read = app.decode_read + n.toNat ∧
          bytes = (app1.shared_file.drop app.decode_read).take n.toNat ∧
          bytes.length = n.toNat := by
    intro wakes app n bytes app1 hr hpos h
    rw [ffd_read_callback_data size wakes app hr hpos] at h
    simp only [ReadOutcome.returned.injEq] at h
    obtain ⟨hn, hb, ha⟩ := h
    have hle := read_count_le app size hpos
    subst hn
    refine ⟨?_, ?_, ?_⟩
    · rw [← ha]
    · rw [← hb, ← ha]
      exact take_fread_at app size _ hle
    · rw [← hb, List.length_take]
      exact Nat.min_eq_left hle
  induction wakes with
  | nil =>
    intro app n bytes app1 h hn
    by_cases hr : app.read_file = none
    · rw [ffd_read_callback_null size [] app hr] at h
      cases h
    · by_cases hpos : 0 < read_count app size
      · exact hdata [] app n bytes app1 hr hpos h
      · rw [ffd_read_callback_stuck size app hr (not_lt.mp hpos)] at h
        cases h
  | cons evs rest ih =>
    intro app n bytes app1 h hn
    by_cases hr : app.read_file = none
    · rw [ffd_read_callback_null size _ app hr] at h
      cases h
    · by_cases hpos : 0 < read_count app size
      · exact hdata _ app n bytes app1 hr hpos h
      · rw [ffd_read_callback_wake size evs rest app hr (not_lt.mp hpos)] at h
        cases hg : gate_events evs (enter_wait app size) with
        | none =>
          rw [hg] at h
          cases h
        | some app3 =>
          rw [hg] at h
          have hdr : app3.decode_read = app.decode_read :=
            gate_events_decode_read evs (enter_wait app size) app3 hg
          by_cases hd : (app3.log [Call.pthread_mutex_unlock]).decode = true
          · simp only [hd, if_true] at h
            have h2 := ih _ n bytes app1 h hn
            have hdr4 : (app3.log [Call.pthread_mutex_unlock]).decode_read = app.decode_read :=
              hdr
            rw [hdr4] at h2
            exact h2
          · simp only [hd] at h
            simp only [Bool.false_eq_true, if_false, ReadOutcome.returned.injEq] at h
            omega

theorem run_writers_inv (evs : List PipeEvent) : ∀ (app : FFCameraSampleApp) (got : List Nat),
    PipeInv app got → ∃ app1, run_writers evs app = some app1 ∧ PipeInv app1 got := by
  induction evs with
  | nil =>
    intro app got h
    exact ⟨app, rfl, h⟩
  | cons e evs ih =>
    intro app got h
    cases e with
    | chunk bytes =>
      obtain ⟨app1, hw, hinv, _⟩ := ffe_write_callback_inv bytes app got h
      obtain ⟨app2, hrun, hinv2⟩ := ih app1 got hinv
      refine ⟨app2, ?_, hinv2⟩
      simp only [run_writers, hw]
      exact hrun
    | flag d =>
      have hflag : PipeInv { app with decode := d } got := h
      obtain ⟨app2, hrun, hinv2⟩ := ih _ got hflag
      exact ⟨app2, by simpa only [run_writers] using hrun, hinv2⟩
    | read size wakes =>
      obtain ⟨app2, hrun, hinv2⟩ := ih app got h
      exact ⟨app2, by simpa only [run_writers] using hrun, hinv2⟩

theorem run_pipe_inv (evs : List PipeEvent) : ∀ (app : FFCameraSampleApp) (got : List Nat),
    PipeInv app got →
      ∃ app1 got1, run_pipe evs (app, got) = some (app1, got1) ∧ PipeInv app1 got1 := by
  induction evs with
  | nil =>
    intro app got h
    exact ⟨app, got, rfl, h⟩
  | cons e evs ih =>
    intro app got h
    cases e with
    | chunk bytes =>
      obtain ⟨app1, hw, hinv, _⟩ := ffe_write_callback_inv bytes app got h
      obtain ⟨app2, got2, hrun, hinv2⟩ := ih app1 got hinv
      refine ⟨app2, got2, ?_, hinv2⟩
      simp only [run_pipe, hw]
      exact hrun
    | flag d =>
      have hflag : PipeInv { app with decode := d } got := h
      obtain ⟨app2, got2, hrun, hinv2⟩ := ih _ got hflag
      exact ⟨app2, got2, by simpa only [run_pipe] using hrun, hinv2⟩
    | read size wakes =>
      rcases ffd_read_callback_inv size wakes app got h with
        ⟨n, bytes, app1, hret, hinv⟩ | ⟨app1, hblk, hinv⟩
      · obtain ⟨app2, got2, hrun, hinv2⟩ := ih app1 (got ++ bytes) hinv
        refine ⟨app2, got2, ?_, hinv2⟩
        simp only [run_pipe, hret]
        exact hrun
      · obtain ⟨app2, hrun, hinv2⟩ := run_writers_inv evs app1 got hinv
        refine ⟨app2, got, ?_, hinv2⟩
        simp only [run_pipe, hblk, hrun, Option.map_some']

theorem enter_wait_waits (app : FFCameraSampleApp) (size : Nat) :
    waits (enter_wait app size).calls = waits app.calls + 1 := by
  show waits ((app.calls ++ _) ++ _) = _
  rw [waits_append, waits_append]
  rfl

theorem enter_wait_empty_reads (app : FFCameraSampleApp) (size : Nat)
    (hzero : read_count app size ≤ 0) :
    empty_reads (enter_wait app size).calls = empty_reads app.calls + 1 := by
  show empty_reads ((app.calls ++ _) ++ _) = _
  rw [empty_reads_append, empty_reads_append]
  simp [empty_reads, hzero]

theorem gate_events_counts (evs : List GateEvent) : ∀ (app app1 : FFCameraSampleApp),
    gate_events evs app = some app1 →
      waits app1.calls = waits app.calls ∧ empty_reads app1.calls = empty_reads app.calls := by
  induction evs with
  | nil =>
    intro app app1 h
    simp only [gate_events, Option.some.injEq] at h
    rw [← h]
    exact ⟨rfl, rfl⟩
  | cons e evs ih =>
    intro app app1 h
    cases e with
    | chunk bytes =>
      simp only [gate_events] at h
      cases hw : ffe_write_callback bytes app with
      | none => rw [hw] at h; cases h
      | some app2 =>
        rw [hw] at h
        have h2 := ih app2 app1 h
        unfold ffe_write_callback at hw
        cases hwf : app.write_file with
        | none => rw [hwf] at hw; cases hw
        | some s =>
          rw [hwf] at hw
          simp only [Option.some.injEq] at hw
          have hc : app2.calls = app.calls ++ [Call.fwrite bytes, Call.pthread_cond_signal] := by
            rw [← hw]
            rfl
          rw [h2.1, h2.2, hc, waits_append, empty_reads_append]
          exact ⟨rfl, rfl⟩
    | flag d =>
      simp only [gate_events] at h
      have h2 := ih _ app1 h
      exact h2

/-- A read request waits on the gate once for each read attempt that obtained
no byte, and never undoes a wait. -/
theorem ffd_read_callback_counts (size : Nat) (wakes : List (List GateEvent)) :
    ∀ (app app1 : FFCameraSampleApp), (ffd_read_callback size wakes app).app? = some app1 →
      waits app1.calls + empty_reads app.calls = waits app.calls + empty_reads app1.calls ∧
        waits app.calls ≤ waits app1.calls := by
  have hdata : ∀ (wakes : List (List GateEvent)) (app app1 : FFCameraSampleApp),
      app.read_file ≠ none → 0 < read_count app size →
      (ffd_read_callback size wakes app).app? = some app1 →
        waits app1.calls + empty_reads app.calls = waits app.calls + empty_reads app1.calls ∧
          waits app.calls ≤ waits app1.calls := by
    intro wakes app app1 hr hpos h
    rw [ffd_read_callback_data size wakes app hr hpos] at h
    simp only [ReadOutcome.app?, Option.some.injEq] at h
    have hc : app1.calls =
        app.calls ++ [Call.fseek app.decode_read, Call.fread size (read_count app size)] := by
      rw [← h]
      rfl
    have hn : ¬ (read_count app size ≤ 0) := not_le.mpr hpos
    rw [hc, waits_append, empty_reads_append]
    simp [empty_reads, waits, hn]
  induction wakes with
  | nil =>
    intro app app1 h
    by_cases hr : app.read_file = none
    · rw [ffd_read_callback_null size [] app hr] at h
      cases h
    · by_cases hpos : 0 < read_count app size
      · exact hdata [] app app1 hr hpos h
      · rw [ffd_read_callback_stuck size app hr (not_lt.mp hpos)] at h
        simp only [ReadOutcome.app?, Option.some.injEq] at h
        rw [← h, enter_wait_waits, enter_wait_empty_reads app size (not_lt.mp hpos)]
        omega
  | cons evs rest ih =>
    intro app app1 h
    by_cases hr : app.read_file = none
    · rw [ffd_read_callback_null size _ app hr] at h
      cases h
    · by_cases hpos : 0 < read_count app size
      · exact hdata _ app app1 hr hpos h
      · rw [ffd_read_callback_wake size evs rest app hr (not_lt.mp hpos)] at h
        cases hg : gate_events evs (enter_wait app size) with
        | none =>
          rw [hg] at h
          cases h
        | some app3 =>
          rw [hg] at h
          have hc := gate_events_counts evs (enter_wait app size) app3 hg
          rw [enter_wait_waits, enter_wait_empty_reads app size (not_lt.mp hpos)] at hc
          have hw4 : waits (app3.log [Call.pthread_mutex_unlock]).calls = waits app.calls + 1 := by
            show waits (app3.calls ++ _) = _
            rw [waits_append, hc.1]
            rfl
          have he4 : empty_reads (app3.log [Call.pthread_mutex_unlock]).calls =
              empty_reads app.calls + 1 := by
            show empty_reads (app3.calls ++ _) = _
            rw [empty_reads_append, hc.2]
            rfl
          by_cases hd : (app3.log [Call.pthread_mutex_unlock]).decode = true
          · simp only [hd, if_true] at h
            have h2 := ih _ app1 h
            rw [hw4, he4] at h2
            omega
          · simp only [hd] at h
            simp only [Bool.false_eq_true, if_false, ReadOutcome.app?, Option.some.injEq] at h
            rw [← h, hw4, he4]
            omega

/-! ## Theorems on the rolling frame-rate window -/

/-- C1: for every sequence of timestamps fed one by one to `update_fps` from an
empty window, a window is returned and the difference `back - front` that the
loop compares with `SECOND` is at most `SECOND`; when no difference of two fed
timestamps overflows `int64_t`, this is the exact difference: the newest
timestamp minus the oldest retained one never exceeds one second. -/
theorem update_fps_window_within_second (ts : List Int) :
    ∃ w, feed [] ts = some w ∧
      (∀ f b, w.head? = some f → w.getLast? = some b → sub64 b f ≤ SECOND) ∧
      ((∀ x ∈ ts, ∀ y ∈ ts, x - y < 2 ^ 63) →
        ∀ f b, w.head? = some f → w.getLast? = some b → b - f ≤ SECOND) := by
  obtain ⟨w, hw, hmem, hinv⟩ := feed_total ts []
  have hne : ∀ f, w.head? = some f → ts ≠ [] := by
    intro f hf hts
    subst hts
    simp only [feed] at hw
    cases hw
    simp at hf
  refine ⟨w, hw, fun f b hf hb => hinv (hne f hf) f b hf hb, ?_⟩
  intro hspan f b hf hb
  have hfm : f ∈ ts := by
    rcases hmem f (List.mem_of_mem_head? hf) with h | h
    · simp at h
    · exact h
  have hbm : b ∈ ts := by
    rcases hmem b (List.mem_of_getLast?_eq_some hb) with h | h
    · simp at h
    · exact h
  have h1 := hspan b hbm f hfm
  have h2 := hspan f hfm b hbm
  have := hinv (hne f hf) f b hf hb
  rw [sub64_exact b f (by omega) h1] at this
  exact this

/-- Witness for C1: on the fed sequence 0, 400000, 1500000, 900000 no difference
overflows, and the window returned has back minus front at most `SECOND`. -/
theorem update_fps_window_within_second_witness :
    (∀ x ∈ [(0 : Int), 400000, 1500000, 900000],
      ∀ y ∈ [(0 : Int), 400000, 1500000, 900000], x - y < 2 ^ 63) ∧
    ∃ w, feed [] [0, 400000, 1500000, 900000] = some w ∧
      (∀ f b, w.head? = some f → w.getLast? = some b → sub64 b f ≤ SECOND) ∧
      ((∀ x ∈ [(0 : Int), 400000, 1500000, 900000],
          ∀ y ∈ [(0 : Int), 400000, 1500000, 900000], x - y < 2 ^ 63) →
        ∀ f b, w.head? = some f → w.getLast? = some b → b - f ≤ SECOND) :=
  ⟨by decide, update_fps_window_within_second [0, 400000, 1500000, 900000]⟩

/-- C2: for every non-decreasing sequence of timestamps fed to `update_fps` from
an empty window (its span representable in `int64_t`), the window after the last
call is exactly the sub-sequence, in arrival order, of the timestamps fed that
are at most `SECOND` older than the last one, and the window size is their
number. -/
theorem update_fps_window_last_second (ts : List Int) (t : Int)
    (hs : (ts ++ [t]).Pairwise (fun a b => a ≤ b))
    (hspan : ∀ x ∈ ts, t - x < 2 ^ 63) :
    feed [] (ts ++ [t]) =
        some ((ts ++ [t]).filter (fun x => decide (t - x ≤ SECOND))) ∧
      ∃ w, feed [] (ts ++ [t]) = some w ∧
        w.length = (ts ++ [t]).countP (fun x => decide (t - x ≤ SECOND)) := by
  have h := feed_sorted ts t hs hspan
  exact ⟨h, _, h, (List.countP_eq_length_filter _ _).symm⟩

/-- Witness for C2: after 0, 500000, 1000000, 1600000 the window holds the two
timestamps of the last second. -/
theorem update_fps_window_last_second_witness :
    ([(0 : Int), 500000, 1000000] ++ [1600000]).Pairwise (fun a b => a ≤ b) ∧
    (∀ x ∈ [(0 : Int), 500000, 1000000], 1600000 - x < 2 ^ 63) ∧
    feed [] ([0, 500000, 1000000] ++ [1600000]) = some [1000000, 1600000] :=
  ⟨by decide, by decide,
    (update_fps_window_last_second [0, 500000, 1000000] 1600000 (by decide) (by decide)).1.trans
      (by decide)⟩

/-- C10: for every window (the empty one included) and every timestamp,
`update_fps` returns: the eviction loop never reads `front()`/`back()` of an
empty deque, pops at most as many entries as the window had before the push,
and leaves a non-empty window whose back is the timestamp just pushed. -/
theorem update_fps_terminates_safely (fps : List Int) (t : Int) :
    ∃ w pops, update_fps fps t = some (w, pops) ∧ pops ≤ fps.length ∧
      w = (fps ++ [t]).drop pops ∧ w ≠ [] ∧ w.getLast? = some t := by
  obtain ⟨n, hn, he, _⟩ := update_fps_snoc fps t
  have hlast := getLast?_drop_snoc fps t n hn
  refine ⟨_, n, he, hn, rfl, ?_, hlast⟩
  intro h
  rw [h] at hlast
  simp at hlast

/-! ## Theorems on the file hand-over -/

/-- C3: with the shared file a byte list to which `ffe_write_callback` appends
each chunk, for every interleaving of chunk writes, flag assignments and read
requests that starts with an empty file, `decode_read = 0` and both streams
open, the run is defined, the file is the concatenation of the written chunks
in write order, and the concatenation of the bytes returned so far is its
prefix of length `decode_read`; and every read request that returns `n > 0`
returns exactly the `n` file bytes from the offset `decode_read` it started
at and advances `decode_read` by exactly `n`. -/
theorem pipe_bytes_in_order (evs : List PipeEvent) (app0 : FFCameraSampleApp)
    (hfile : app0.shared_file = []) (hoff : app0.decode_read = 0)
    (hcalls : written app0.calls = [])
    (hw : app0.write_file ≠ none) (hr : app0.read_file ≠ none) :
    (∃ app got, run_pipe evs (app0, []) = some (app, got) ∧
        app.shared_file = written app.calls ∧
        got = (written app.calls).take app.decode_read) ∧
      ∀ (size : Nat) (wakes : List (List GateEvent)) (app : FFCameraSampleApp) (n : Int)
        (bytes : List Nat) (app1 : FFCameraSampleApp),
        ffd_read_callback size wakes app = ReadOutcome.returned n bytes app1 → 0 < n →
          app1.decode_read = app.decode_read + n.toNat ∧
            bytes = (app1.shared_file.drop app.decode_read).take n.toNat ∧
            bytes.length = n.toNat := by
  have h0 : PipeInv app0 [] := by
    refine ⟨by rw [hfile, hcalls], ?_, ?_, hw, hr⟩
    · rw [hoff]
      rfl
    · rw [hoff]
      exact Nat.zero_le _
  obtain ⟨app, got, hrun, hinv⟩ := run_pipe_inv evs app0 [] h0
  refine ⟨⟨app, got, hrun, hinv.1, ?_⟩, fun size wakes => ffd_read_callback_bytes size wakes⟩
  rw [← hinv.1]
  exact hinv.2.1

/-- Witness for C3: a chunk of three bytes, two reads, the flag set, and a read
that waits for a second chunk; the five bytes come back in write order. -/
theorem pipe_bytes_in_order_witness :
    session_app.shared_file = [] ∧ session_app.decode_read = 0 ∧
    written session_app.calls = [] ∧ session_app.write_file ≠ none ∧
    session_app.read_file ≠ none ∧
    (run_pipe [PipeEvent.chunk [1, 2, 3], PipeEvent.read 2 [], PipeEvent.read 5 [],
        PipeEvent.flag true, PipeEvent.read 5 [[GateEvent.chunk [9, 9]]]]
      (session_app, [])).map Prod.snd = some [1, 2, 3, 9, 9] ∧
    ((∃ app got, run_pipe [PipeEvent.chunk [1, 2, 3], PipeEvent.read 2 [], PipeEvent.read 5 [],
        PipeEvent.flag true, PipeEvent.read 5 [[GateEvent.chunk [9, 9]]]] (session_app, []) =
          some (app, got) ∧
        app.shared_file = written app.calls ∧
        got = (written app.calls).take app.decode_read) ∧
      ∀ (size : Nat) (wakes : List (List GateEvent)) (app : FFCameraSampleApp) (n : Int)
        (bytes : List Nat) (app1 : FFCameraSampleApp),
        ffd_read_callback size wakes app = ReadOutcome.returned n bytes app1 → 0 < n →
          app1.decode_read = app.decode_read + n.toNat ∧
            bytes = (app1.shared_file.drop app.decode_read).take n.toNat ∧
            bytes.length = n.toNat) :=
  ⟨rfl, rfl, rfl, by decide, by decide,
    by simp [run_pipe, ffe_write_callback, session_app, initial_app, ffd_read_callback,
      fread_at, FFCameraSampleApp.log, toInt32, gate_events, run_writers],
    pipe_bytes_in_order _ session_app rfl rfl rfl (by decide) (by decide)⟩

/-- C4, as stated, fails: with the session marked inactive (`decode == false`)
and no byte to read, the request waits on the gate.  Woken once it returns
zero after one `pthread_cond_wait`; never woken it stays blocked in the wait. -/
theorem ffd_read_callback_waits_while_inactive :
    session_app.decode = false ∧ read_count session_app 4096 = 0 ∧
    waits session_app.calls = 0 ∧
    ffd_read_callback 4096 [[]] session_app =
      ReadOutcome.returned 0 [] ((enter_wait session_app 4096).log [Call.pthread_mutex_unlock]) ∧
    waits ((enter_wait session_app 4096).log [Call.pthread_mutex_unlock]).calls = 1 ∧
    ffd_read_callback 4096 [] session_app = ReadOutcome.blocked (enter_wait session_app 4096) :=
  ⟨rfl, by decide, rfl, rfl, by decide, rfl⟩

/-- C4 as amended: a read request whose first attempt obtains bytes returns
without waiting; one whose first attempt obtains none waits on the gate whether
or not the session is marked active; in all, the callback waits exactly once
per read attempt that obtained no byte; and the flag is examined only when a
wait ends: woken with the session inactive, the callback returns the empty
count without another attempt or wait. -/
theorem ffd_read_callback_gate (size : Nat) (wakes : List (List GateEvent))
    (app : FFCameraSampleApp) (hr : app.read_file ≠ none) :
    (0 < read_count app size →
      ∃ bytes app1, ffd_read_callback size wakes app =
          ReadOutcome.returned (read_count app size) bytes app1 ∧
        waits app1.calls = waits app.calls) ∧
    (read_count app size ≤ 0 →
      ∀ app1, (ffd_read_callback size wakes app).app? = some app1 →
        waits app.calls < waits app1.calls) ∧
    (∀ app1, (ffd_read_callback size wakes app).app? = some app1 →
      waits app1.calls + empty_reads app.calls = waits app.calls + empty_reads app1.calls) ∧
    (read_count app size ≤ 0 →
      ∀ evs rest app3, wakes = evs :: rest →
        gate_events evs (enter_wait app size) = some app3 → app3.decode = false →
          ffd_read_callback size wakes app =
              ReadOutcome.returned (read_count app size) [] (app3.log [Call.pthread_mutex_unlock]) ∧
            waits (app3.log [Call.pthread_mutex_unlock]).calls = waits app.calls + 1) := by
  refine ⟨?_, ?_, fun app1 h => (ffd_read_callback_counts size wakes app app1 h).1, ?_⟩
  · intro hpos
    refine ⟨_, _, ffd_read_callback_data size wakes app hr hpos, ?_⟩
    show waits (app.calls ++ _) = _
    rw [waits_append]
    rfl
  · intro hzero app1 h
    cases wakes with
    | nil =>
      rw [ffd_read_callback_stuck size app hr hzero] at h
      simp only [ReadOutcome.app?, Option.some.injEq] at h
      rw [← h, enter_wait_waits]
      omega
    | cons evs rest =>
      rw [ffd_read_callback_wake size evs rest app hr hzero] at h
      cases hg : gate_events evs (enter_wait app size) with
      | none =>
        rw [hg] at h
        cases h
      | some app3 =>
        rw [hg] at h
        have hc := gate_events_counts evs (enter_wait app size) app3 hg
        rw [enter_wait_waits] at hc
        have hw4 : waits (app3.log [Call.pthread_mutex_unlock]).calls = waits app.calls + 1 := by
          show waits (app3.calls ++ _) = _
          rw [waits_append, hc.1]
          rfl
        by_cases hd : (app3.log [Call.pthread_mutex_unlock]).decode = true
        · simp only [hd, if_true] at h
          have h2 := (ffd_read_callback_counts size rest _ app1 h).2
          rw [hw4] at h2
          omega
        · simp only [hd] at h
          simp only [Bool.false_eq_true, if_false, ReadOutcome.app?, Option.some.injEq] at h
          rw [← h, hw4]
          omega
  · intro hzero evs rest app3 hwakes hg hd
    subst hwakes
    have hd4 : (app3.log [Call.pthread_mutex_unlock]).decode = false := hd
    have hc := gate_events_counts evs (enter_wait app size) app3 hg
    rw [enter_wait_waits] at hc
    refine ⟨?_, ?_⟩
    · rw [ffd_read_callback_wake size evs rest app hr hzero, hg]
      simp only [hd4]
      rfl
    · show waits (app3.calls ++ _) = _
      rw [waits_append, hc.1]
      rfl

/-- Witness for C4 as amended: the request on the empty file with the session
inactive waits once and, woken with the flag still clear, returns zero. -/
theorem ffd_read_callback_gate_witness :
    session_app.read_file ≠ none ∧ read_count session_app 4096 ≤ 0 ∧
    gate_events [] (enter_wait session_app 4096) = some (enter_wait session_app 4096) ∧
    (enter_wait session_app 4096).decode = false ∧
    ffd_read_callback 4096 [[]] session_app =
      ReadOutcome.returned (read_count session_app 4096) []
        ((enter_wait session_app 4096).log [Call.pthread_mutex_unlock]) ∧
    waits ((enter_wait session_app 4096).log [Call.pthread_mutex_unlock]).calls =
      waits session_app.calls + 1 :=
  ⟨by decide, by decide, rfl, rfl,
    (ffd_read_callback_gate 4096 [[]] session_app (by decide)).2.2.2 (by decide) [] []
      (enter_wait session_app 4096) rfl rfl rfl⟩

/-! ## Theorems on the viewfinder callback and the session slots -/

/-- C5: `vf_callback` drops every frame whose type is not NV12 and leaves the
whole state as it was (the fps window, the timestamp last logged by `print_fps`
and the trace, so no `ffenc_add_frame`); for every NV12 frame it returns, the
window is the one `update_fps` computes and the last platform call is
`ffenc_add_frame` on that frame. -/
theorem vf_callback_filters_nv12 (buf : camera_buffer_t) (app : FFCameraSampleApp) :
    (buf.frametype ≠ CAMERA_FRAMETYPE_NV12 → vf_callback buf app = some app) ∧
    (buf.frametype = CAMERA_FRAMETYPE_NV12 →
      ∃ app1, vf_callback buf app = some app1 ∧
        (update_fps app.fps buf.frametimestamp).map Prod.fst = some app1.fps ∧
        app1.calls = (print_fps { app with fps := app1.fps } buf).calls ++
          [Call.ffenc_add_frame buf]) := by
  constructor
  · intro h
    simp only [vf_callback, h, ne_eq, not_false_eq_true, if_true]
  · intro h
    obtain ⟨pops, _, hu, _⟩ := update_fps_snoc app.fps buf.frametimestamp
    generalize (app.fps ++ [buf.frametimestamp]).drop pops = w at hu
    have hfps : (print_fps { app with fps := w } buf).fps = w := by
      unfold print_fps
      split <;> rfl
    refine ⟨(print_fps { app with fps := w } buf).log [Call.ffenc_add_frame buf], ?_, ?_, ?_⟩
    · simp only [vf_callback, h, ne_eq, not_true_eq_false, if_false, hu]
    · rw [hu]
      show some w = some (print_fps { app with fps := w } buf).fps
      rw [hfps]
    · show (print_fps { app with fps := w } buf).calls ++ _ =
        (print_fps { app with fps := (print_fps { app with fps := w } buf).fps } buf).calls ++ _
      rw [hfps]

/-- Witness for C5: a frame of type 2 is dropped, a frame of type NV12 is
forwarded. -/
theorem vf_callback_filters_nv12_witness :
    (2 : Nat) ≠ CAMERA_FRAMETYPE_NV12 ∧
    vf_callback { frametype := 2, frametimestamp := 40 } camera_app = some camera_app ∧
    (1 : Nat) = CAMERA_FRAMETYPE_NV12 ∧
    ∃ app1, vf_callback { frametype := 1, frametimestamp := 40 } camera_app = some app1 ∧
      (update_fps camera_app.fps 40).map Prod.fst = some app1.fps ∧
      app1.calls = (print_fps { camera_app with fps := app1.fps }
          { frametype := 1, frametimestamp := 40 }).calls ++
        [Call.ffenc_add_frame { frametype := 1, frametimestamp := 40 }] :=
  ⟨by decide,
    (vf_callback_filters_nv12 { frametype := 2, frametimestamp := 40 } camera_app).1 (by decide),
    rfl,
    (vf_callback_filters_nv12 { frametype := 1, frametimestamp := 40 } camera_app).2 rfl⟩

/-- C8: with no decode session active and the source file absent (`stat`
fails), `onStartDecoder` only calls `stat` and reports the error: `decode`
stays false, `read_file` and `decode_read` are unchanged, no codec context is
allocated or attached to `ffd_context`, no stream is opened, and the Play
button is unchanged. -/
theorem onStartDecoder_file_not_found (env : SessionEnv) (app : FFCameraSampleApp)
    (hd : app.decode = false) (hs : env.stat_found = false) :
    ∃ app1, onStartDecoder env app = some app1 ∧
      app1 = app.log [Call.stat, Call.fprintf "file not found"] ∧
      app1.decode = false ∧ app1.read_file = app.read_file ∧
      app1.decode_read = app.decode_read ∧ app1.ffd_context = app.ffd_context ∧
      app1.live_contexts = app.live_contexts ∧ app1.open_files = app.open_files ∧
      app1.mStartDecoderButton = app.mStartDecoderButton := by
  refine ⟨app.log [Call.stat, Call.fprintf "file not found"], ?_, rfl, hd, rfl, rfl, rfl, rfl,
    rfl, rfl⟩
  simp only [onStartDecoder, hd, hs, Bool.false_eq_true, if_false, not_false_eq_true, if_true]
  simp [FFCameraSampleApp.log]

/-- Witness for C8: the initial state on a platform without the file. -/
theorem onStartDecoder_file_not_found_witness :
    initial_app.decode = false ∧ env_no_file.stat_found = false ∧
    onStartDecoder env_no_file initial_app =
      some (initial_app.log [Call.stat, Call.fprintf "file not found"]) := by
  obtain ⟨app1, h1, h2, _⟩ := onStartDecoder_file_not_found env_no_file initial_app rfl rfl
  exact ⟨rfl, rfl, by rw [h1, h2]⟩

/-- C9: a start request made while the session is active never opens a second
one.  `createViewfinder` with a valid camera handle returns `EBUSY` and leaves
the state untouched; `onStartStopRecording` with `record == true` makes no call
other than the stop of the encoder, opens no stream and allocates no context;
`onStartDecoder` with `decode == true` only clears the flag, stops the decoder
and signals the gate. -/
theorem active_session_not_restarted (cam : CameraEnv) (enc dec : SessionEnv)
    (cameraUnit : Nat) (app : FFCameraSampleApp) :
    (app.mCameraHandle ≠ none → createViewfinder cam cameraUnit app = (EBUSY, app)) ∧
    (app.record = true →
      ∃ app1, onStartStopRecording enc dec app = some app1 ∧
        (app1.calls = app.calls ∨
          app1.calls = app.calls ++ [Call.qDebug "stop requested", Call.ffenc_stop]) ∧
        app1.write_file = app.write_file ∧ app1.read_file = app.read_file ∧
        app1.open_files = app.open_files ∧ app1.live_contexts = app.live_contexts ∧
        app1.ffe_context = app.ffe_context ∧ app1.ffd_context = app.ffd_context ∧
        app1.decode = app.decode ∧ app1.mCameraHandle = app.mCameraHandle) ∧
    (app.decode = true →
      ∃ app1, onStartDecoder dec app = some app1 ∧
        app1.calls = app.calls ++ [Call.ffdec_stop, Call.pthread_cond_signal] ∧
        app1.decode = false ∧
        app1.write_file = app.write_file ∧ app1.read_file = app.read_file ∧
        app1.decode_read = app.decode_read ∧
        app1.open_files = app.open_files ∧ app1.live_contexts = app.live_contexts ∧
        app1.ffe_context = app.ffe_context ∧ app1.ffd_context = app.ffd_context ∧
        app1.record = app.record ∧ app1.mCameraHandle = app.mCameraHandle) := by
  refine ⟨?_, ?_, ?_⟩
  · intro h
    simp only [createViewfinder, h, ne_eq, not_false_eq_true, if_true]
  · intro h
    by_cases hc : app.mCameraHandle = none
    · refine ⟨app, ?_, Or.inl rfl, rfl, rfl, rfl, rfl, rfl, rfl, rfl, rfl⟩
      simp only [onStartStopRecording, hc, if_true]
    · simp only [onStartStopRecording, hc, h, if_true, if_false]
      exact ⟨_, rfl, Or.inr rfl, rfl, rfl, rfl, rfl, rfl, rfl, rfl, rfl⟩
  · intro h
    simp only [onStartDecoder, h, if_true]
    exact ⟨_, rfl, rfl, rfl, rfl, rfl, rfl, rfl, rfl, rfl, rfl, rfl, rfl⟩

/-- Witness for C9: after a recording with preview was started on a working
platform, the camera, the recording and the decoder are all active; the three
start requests are refused or stop the session. -/
theorem active_session_not_restarted_witness :
    ∃ app, onStartStopRecording env_encoder_ok env_ok camera_app = some app ∧
      app.mCameraHandle ≠ none ∧ app.record = true ∧ app.decode = true ∧
      createViewfinder { camera_open := some 2, start_viewfinder_ok := true } 1 app =
        (EBUSY, app) ∧
      (∃ app1, onStartStopRecording env_ok env_ok app = some app1 ∧
        app1.open_files = app.open_files) ∧
      (∃ app1, onStartDecoder env_ok app = some app1 ∧ app1.open_files = app.open_files) := by
  obtain ⟨app, happ⟩ : ∃ app, onStartStopRecording env_encoder_ok env_ok camera_app = some app :=
    ⟨_, rfl⟩
  have hcam : app.mCameraHandle ≠ none := by
    have : some app = _ := happ.symm
    cases this
    decide
  have hrec : app.record = true := by
    have : some app = _ := happ.symm
    cases this
    rfl
  have hdec : app.decode = true := by
    have : some app = _ := happ.symm
    cases this
    rfl
  have h := active_session_not_restarted { camera_open := some 2, start_viewfinder_ok := true }
    env_ok env_ok 1 app
  obtain ⟨a1, h1, _, _, _, h1o, _⟩ := h.2.1 hrec
  obtain ⟨a2, h2, _, _, _, _, _, h2o, _⟩ := h.2.2 hdec
  exact ⟨app, happ, hcam, hrec, hdec, h.1 hcam, ⟨a1, h1, h1o⟩, ⟨a2, h2, h2o⟩⟩

/-- C6, evaluated on the code: with the camera active and `record == false`,
a request whose `start_encoder` cannot open the output file (`write_file` stays
`NULL`) still ends with `record == true`; and a request whose encoder cannot be
opened still ends with `record == true` and, the decoder start succeeding,
with a decode session started (`decode == true`). -/
theorem onStartStopRecording_failed_start_sets_record :
    camera_app.mCameraHandle = some 1 ∧ camera_app.record = false ∧
    camera_app.decode = false ∧
    (start_encoder env_no_file (camera_app.log [Call.qDebug "start requested"])).map
      (fun a => (a.write_file, a.calls.getLast?)) =
        some (none, some (Call.fprintf "could not open")) ∧
    (onStartStopRecording env_no_file env_no_file camera_app).map
      (fun a => (a.record, a.decode)) = some (true, false) ∧
    (start_encoder env_open_fails (camera_app.log [Call.qDebug "start requested"])).map
      (fun a => a.calls.getLast?) = some (some (Call.fprintf "could not open codec context")) ∧
    (onStartStopRecording env_open_fails env_ok camera_app).map
      (fun a => (a.record, a.decode)) = some (true, true) :=
  ⟨rfl, rfl, rfl, rfl, rfl, rfl, rfl⟩

/-- C7, evaluated on the code: when no encoder is found `start_encoder` returns
with the stream it opened still open and still stored in `write_file`; when the
codec cannot be opened it frees the codec context, leaves the pointer to it in
`ffe_context` and leaves the stream open; `onStartDecoder` does the same with
`read_file` and `ffd_context`.  The close callback `ffe_context_close`, run on
the state the failed start leaves, does close the stream and clear the handle. -/
theorem session_start_failure_keeps_resources :
    (start_encoder env_no_codec camera_app).map
      (fun a => (a.write_file, a.open_files)) = some (some 8, [8]) ∧
    (start_encoder env_open_fails camera_app).map
      (fun a => (a.write_file, a.open_files, a.ffe_context.codec_context, a.live_contexts)) =
        some (some 8, [8], some 5, []) ∧
    (onStartDecoder env_no_decoder initial_app).map
      (fun a => (a.read_file, a.open_files)) = some (some 7, [7]) ∧
    (onStartDecoder { env_ok with open_ok := false } initial_app).map
      (fun a => (a.read_file, a.open_files, a.ffd_context.codec_context, a.live_contexts)) =
        some (some 7, [7], some 5, []) ∧
    ((start_encoder env_no_codec camera_app).bind (ffe_context_close close_and_clear)).map
      (fun a => (a.write_file, a.open_files)) = some (none, []) :=
  ⟨rfl, rfl, rfl, rfl, rfl⟩

end FFCameraSample
